import Mathlib

/-!
Verification development for the Shopr `PersonalizationEngine`
(`src/assets/js/production-analytics.js`, class `PersonalizationEngine`).

The JavaScript source is shallowly embedded:
* JS numbers that can hold `Infinity` / `NaN` (price bookkeeping) are the
  inductive `JSNum` with an exact rational payload and IEEE-style
  special-value propagation for the operations the source uses.
* The final similarity blend, which mixes the (possibly `NaN`) price ratio
  with real-valued cosine similarity, lives in `RVal` (real payload).
* JS objects used as string-keyed maps are association lists.
* The ambient clock (`Date.now()`) and contextual snapshot
  (`getCurrentSeason` / `getCurrentTimeOfDay` / weekend flag) are injected
  as explicit parameters, one clock value per engine entry point.
* `Array.prototype.sort` with V8 (stable) is modelled by `List.mergeSort`.
-/

namespace Shopr

/-- A JavaScript number as used by the engine: `NaN`, `±Infinity`, or a
finite value (idealised as an exact rational, ignoring rounding). -/
inductive JSNum where
  | nan : JSNum
  | inf : JSNum
  | ninf : JSNum
  | fin : ℚ → JSNum
deriving DecidableEq

namespace JSNum

/-- JS truthiness of a number: `NaN` and `0` are falsy. -/
def truthy : JSNum → Bool
  | .nan => false
  | .inf => true
  | .ninf => true
  | .fin q => decide (q ≠ 0)

/-- JS `<` on numbers (`false` whenever `NaN` is involved). -/
def ltB : JSNum → JSNum → Bool
  | .nan, _ => false
  | _, .nan => false
  | .ninf, .ninf => false
  | .ninf, _ => true
  | _, .ninf => false
  | .inf, _ => false
  | .fin _, .inf => true
  | .fin a, .fin b => decide (a < b)

/-- JS `>` on numbers. -/
def gtB (a b : JSNum) : Bool := ltB b a

/-- JS `<=` on numbers (`false` whenever `NaN` is involved). -/
def leB : JSNum → JSNum → Bool
  | .nan, _ => false
  | _, .nan => false
  | .ninf, _ => true
  | _, .ninf => false
  | _, .inf => true
  | .inf, _ => false
  | .fin a, .fin b => decide (a ≤ b)

/-- JS `>=` on numbers. -/
def geB (a b : JSNum) : Bool := leB b a

/-- JS subtraction: `Infinity - Infinity = NaN`, infinities absorb finite
values, `NaN` propagates. -/
def sub : JSNum → JSNum → JSNum
  | .nan, _ => .nan
  | _, .nan => .nan
  | .inf, .inf => .nan
  | .inf, _ => .inf
  | .ninf, .ninf => .nan
  | .ninf, _ => .ninf
  | .fin _, .inf => .ninf
  | .fin _, .ninf => .inf
  | .fin a, .fin b => .fin (a - b)

/-- JS `Math.min`: `NaN` wins, otherwise the smaller value. -/
def minJ : JSNum → JSNum → JSNum
  | .nan, _ => .nan
  | _, .nan => .nan
  | .ninf, _ => .ninf
  | _, .ninf => .ninf
  | .inf, b => b
  | a, .inf => a
  | .fin a, .fin b => .fin (min a b)

/-- JS `Math.max`: `NaN` wins, otherwise the larger value. -/
def maxJ : JSNum → JSNum → JSNum
  | .nan, _ => .nan
  | _, .nan => .nan
  | .inf, _ => .inf
  | _, .inf => .inf
  | .ninf, b => b
  | a, .ninf => a
  | .fin a, .fin b => .fin (max a b)

/-- JS division restricted to the values the engine can produce:
`Infinity / Infinity = NaN`, finite / infinite = 0, `NaN` propagates. -/
def div : JSNum → JSNum → JSNum
  | .nan, _ => .nan
  | _, .nan => .nan
  | .inf, .inf => .nan
  | .inf, .ninf => .nan
  | .ninf, .inf => .nan
  | .ninf, .ninf => .nan
  | .inf, .fin b => if b < 0 then .ninf else .inf
  | .ninf, .fin b => if b < 0 then .inf else .ninf
  | .fin _, .inf => .fin 0
  | .fin _, .ninf => .fin 0
  | .fin a, .fin b =>
      if b = 0 then (if a = 0 then .nan else if a < 0 then .ninf else .inf)
      else .fin (a / b)

end JSNum

/-- A JS number with a real payload, used where the engine mixes the price
ratio (possibly `NaN` or infinite) with real-valued cosine similarity. -/
inductive RVal where
  | nan : RVal
  | inf : RVal
  | ninf : RVal
  | fin : ℝ → RVal

namespace RVal

/-- Addition with IEEE special-value propagation. -/
noncomputable def add : RVal → RVal → RVal
  | .nan, _ => .nan
  | _, .nan => .nan
  | .inf, .ninf => .nan
  | .ninf, .inf => .nan
  | .inf, _ => .inf
  | _, .inf => .inf
  | .ninf, _ => .ninf
  | _, .ninf => .ninf
  | .fin a, .fin b => .fin (a + b)

/-- Multiplication with IEEE special-value propagation
(`Infinity * 0 = NaN`). -/
noncomputable def mul : RVal → RVal → RVal
  | .nan, _ => .nan
  | _, .nan => .nan
  | .inf, .inf => .inf
  | .inf, .ninf => .ninf
  | .ninf, .inf => .ninf
  | .ninf, .ninf => .inf
  | .inf, .fin b => if b = 0 then .nan else if b < 0 then .ninf else .inf
  | .fin a, .inf => if a = 0 then .nan else if a < 0 then .ninf else .inf
  | .ninf, .fin b => if b = 0 then .nan else if b < 0 then .inf else .ninf
  | .fin a, .ninf => if a = 0 then .nan else if a < 0 then .inf else .ninf
  | .fin a, .fin b => .fin (a * b)

/-- The value is an ordinary real in the unit interval, which is what the
specification claims of every similarity result. -/
def inUnit : RVal → Prop
  | .fin x => 0 ≤ x ∧ x ≤ 1
  | _ => False

end RVal

/-- Inclusion of the rational-payload JS numbers into the real-payload ones. -/
def JSNum.toRVal : JSNum → RVal
  | .nan => .nan
  | .inf => .inf
  | .ninf => .ninf
  | .fin q => .fin (q : ℝ)

/-- The profile field `priceRange` / `preferredPriceRange`: a pair of JS
numbers. The initial value is `{min: 0, max: Infinity}`. -/
structure PriceRange where
  min : JSNum
  max : JSNum
deriving DecidableEq

/-- One interaction fed to `updateUserProfile`. Absent (undefined) fields
are `none`; the empty string and the number `0` are modelled explicitly so
that JS truthiness guards can be stated faithfully. -/
structure Interaction where
  type : String
  productId : Option Nat
  category : Option String
  brand : Option String
  price : Option ℚ
  style : Option String
  tags : Option (List String)
  season : Option String
  timeOfDay : Option String
  timestamp : ℚ
deriving DecidableEq

/-- An entry of `behaviorHistory`: the spread interaction with the
recording clock value and the composite interaction weight attached. -/
structure BehaviorEntry where
  interaction : Interaction
  timestamp : ℚ
  weight : ℚ
deriving DecidableEq

/-- An entry of `purchaseHistory` as pushed by `updateConversionMetrics`. -/
structure PurchaseRecord where
  productId : Option Nat
  price : Option ℚ
  category : Option String
  timestamp : ℚ
deriving DecidableEq

/-- The `styleProfile` sub-object: per-style and per-tag counters. A fresh
profile has `styleProfile = {}`, so both sub-objects are absent (`none`)
until `updateStyleProfile` first creates them; `getContentBasedRecommendations`
tests `profile.styleProfile.tags` for truthiness. -/
structure StyleProfile where
  styles : Option (List (String × ℚ))
  tags : Option (List (String × ℚ))
deriving DecidableEq

/-- A user profile as created by `createNewUserProfile` and mutated by
`updateUserProfile`. Fields the scoring logic never reads
(demographics, preferences, searchHistory, seasonalPreferences,
lastUpdated) are omitted. -/
structure UserProfile where
  userId : String
  behaviorHistory : List BehaviorEntry
  purchaseHistory : List PurchaseRecord
  categoryAffinities : List (String × ℚ)
  brandAffinities : List (String × ℚ)
  priceRange : PriceRange
  preferredPriceRange : Option PriceRange
  styleProfile : StyleProfile
  totalInteractions : ℕ
  conversionRate : ℚ
  averageOrderValue : ℚ
  lifetimeValue : ℚ
deriving DecidableEq

/-- A catalog product as read by the recommenders. -/
structure Product where
  id : Nat
  category : String
  brand : String
  price : Option ℚ
  tags : Option (List String)
  season : Option String
deriving DecidableEq

/-- The engine's contextual snapshot (`contextualData` /
`getCurrentSeason` / `getCurrentTimeOfDay`), injected for testability. -/
structure AppContext where
  season : String
  timeOfDay : String
  isWeekend : Bool
deriving DecidableEq

/-- Association-list read modelling `obj[key] || 0`. -/
def affQ (l : List (String × ℚ)) (k : String) : ℚ :=
  match l with
  | [] => 0
  | (k2, v) :: rest => if k2 = k then v else affQ rest k

/-- Association-list write modelling `obj[key] = v` (replace the binding if
present, append otherwise). -/
def setA (l : List (String × ℚ)) (k : String) (v : ℚ) : List (String × ℚ) :=
  match l with
  | [] => [(k, v)]
  | (k2, w) :: rest => if k2 = k then (k2, v) :: rest else (k2, w) :: setA rest k v

/-- JS truthiness of an optional string (`undefined` and `""` are falsy). -/
def strTruthy : Option String → Bool
  | none => false
  | some s => decide (s ≠ "")

/-- Configured `behaviorAnalysis.clickWeights` lookup with the `|| 1.0`
fallback of the source. -/
def clickWeight : String → ℚ
  | "view" => 1
  | "click" => 2
  | "add_to_cart" => 5
  | "purchase" => 10
  | "wishlist" => 3
  | "share" => 5 / 2
  | _ => 1

/-- Configured `userProfiling.categoryWeights` lookup with the `|| 1.0`
fallback of the source. -/
def categoryWeightConfig : String → ℚ
  | "clothing" => 1
  | "shoes" => 9 / 10
  | "accessories" => 4 / 5
  | "electronics" => 7 / 10
  | "home" => 3 / 5
  | _ => 1

/-- Milliseconds per day, as in `calculateTimeWeight`. -/
def dayMs : ℚ := 86400000

/-- Default `recommendations.diversityFactor`. -/
def diversityFactor : ℚ := 3 / 10

/-- JS `Math.ceil` on an exact rational, landing in `ℕ` (the engine only
applies it to nonnegative values that are compared against natural
counts). -/
def jsCeil (q : ℚ) : ℕ := (-(Rat.floor (-q))).toNat

/-- Default `recommendations.hybridWeight`. -/
def hybridWeight : ℚ := 7 / 10

/-- Default `recommendations.minSimilarUsers`. -/
def minSimilarUsers : ℕ := 5

/-- Default `userProfiling.maxHistoryItems`. -/
def maxHistoryItems : ℕ := 1000

/-- Source `createNewUserProfile`: fresh profile with empty maps and
`priceRange = {min: 0, max: Infinity}`. -/
def createNewUserProfile (userId : String) : UserProfile where
  userId := userId
  behaviorHistory := []
  purchaseHistory := []
  categoryAffinities := []
  brandAffinities := []
  priceRange := ⟨.fin 0, .inf⟩
  preferredPriceRange := none
  styleProfile := ⟨none, none⟩
  totalInteractions := 0
  conversionRate := 0
  averageOrderValue := 0
  lifetimeValue := 0

/-- Source `calculateTimeWeight(timestamp)`: bucket the age
`clockNow - timestamp` into recent/week/month/older weights. The internal
`Date.now()` is the injected clock. -/
def calculateTimeWeight (clockNow timestamp : ℚ) : ℚ :=
  let age := clockNow - timestamp
  if age < dayMs then 1
  else if age < 7 * dayMs then 4 / 5
  else if age < 30 * dayMs then 3 / 5
  else 3 / 10

/-- Source `calculateContextWeight`: multiply by 1.2 on a season match and
by 1.1 on a time-of-day match, guarded by JS truthiness of the fields. -/
def calculateContextWeight (ctx : AppContext) (i : Interaction) : ℚ :=
  let w : ℚ := 1
  let w := match i.season with
    | some s => if s ≠ "" ∧ ctx.season = s then w * (6 / 5) else w
    | none => w
  match i.timeOfDay with
  | some t => if t ≠ "" ∧ ctx.timeOfDay = t then w * (11 / 10) else w
  | none => w

/-- Source `calculateInteractionWeight(interaction, timestamp)`:
base click weight times time weight times context weight. -/
def calculateInteractionWeight (ctx : AppContext) (clockNow : ℚ)
    (i : Interaction) (timestamp : ℚ) : ℚ :=
  clickWeight i.type * calculateTimeWeight clockNow timestamp *
    calculateContextWeight ctx i

/-- Source `updateCategoryAffinity`: add the base click weight times the
static category weight to the category's accumulator. -/
def updateCategoryAffinity (p : UserProfile) (category interactionType : String) :
    UserProfile :=
  let v := affQ p.categoryAffinities category +
    clickWeight interactionType * categoryWeightConfig category
  { p with categoryAffinities := setA p.categoryAffinities category v }

/-- Source `updateBrandAffinity`: add the base click weight to the brand's
accumulator. -/
def updateBrandAffinity (p : UserProfile) (brand interactionType : String) :
    UserProfile :=
  let v := affQ p.brandAffinities brand + clickWeight interactionType
  { p with brandAffinities := setA p.brandAffinities brand v }

/-- Source `updatePricePreferences`: widen `priceRange` (with JS truthiness
guards on the current bounds) and, once at least five truthy purchase
prices exist, set `preferredPriceRange` to the floor-indexed 10th and 90th
percentiles of the ascending price list. -/
def updatePricePreferences (p : UserProfile) (price : ℚ) : UserProfile :=
  let newMin :=
    if !(p.priceRange.min.truthy) || JSNum.ltB (.fin price) p.priceRange.min
    then JSNum.fin price else p.priceRange.min
  let newMax :=
    if !(p.priceRange.max.truthy) || JSNum.gtB (.fin price) p.priceRange.max
    then JSNum.fin price else p.priceRange.max
  let prices :=
    ((p.purchaseHistory.map (·.price)).filterMap
      (fun o => match o with
        | none => none
        | some q => if q = 0 then none else some q)).mergeSort
      (fun a b => decide (a ≤ b))
  let pref :=
    if 5 ≤ prices.length then
      some ⟨.fin (prices.getD (Nat.floor ((prices.length : ℚ) * (1 / 10))) 0),
            .fin (prices.getD (Nat.floor ((prices.length : ℚ) * (9 / 10))) 0)⟩
    else p.preferredPriceRange
  { p with priceRange := ⟨newMin, newMax⟩, preferredPriceRange := pref }

/-- Source `updateStyleProfile`: bump the per-style counter when a truthy
style is present and each per-tag counter when a tag array is present. -/
def updateStyleProfile (p : UserProfile) (style : Option String)
    (tags : Option (List String)) : UserProfile :=
  let curStyles := p.styleProfile.styles.getD []
  let curTags := p.styleProfile.tags.getD []
  let styles2 := match style with
    | some s => if s ≠ "" then setA curStyles s (affQ curStyles s + 1) else curStyles
    | none => curStyles
  let tags2 := match tags with
    | some ts => ts.foldl (fun acc t => setA acc t (affQ acc t + 1)) curTags
    | none => curTags
  { p with styleProfile := ⟨some styles2, some tags2⟩ }

/-- Source `updateConversionMetrics`: on a purchase, append the purchase
record and recompute conversion rate (purchases over views, 0 when no
views), average order value and lifetime value. -/
def updateConversionMetrics (clockNow : ℚ) (p : UserProfile) (i : Interaction) :
    UserProfile :=
  if i.type = "purchase" then
    let ph := p.purchaseHistory ++ [⟨i.productId, i.price, i.category, clockNow⟩]
    let totalViews :=
      (p.behaviorHistory.filter (fun h => h.interaction.type = "view")).length
    let totalPurchases := ph.length
    let totalValue := ph.foldl (fun sum pr => sum + pr.price.getD 0) 0
    { p with purchaseHistory := ph,
             conversionRate :=
               if 0 < totalViews then (totalPurchases : ℚ) / totalViews else 0,
             averageOrderValue :=
               if 0 < totalPurchases then totalValue / totalPurchases else 0,
             lifetimeValue := totalValue }
  else p

/-- Source `updateUserProfile(userId, interaction)` acting on the resolved
profile: push the weighted history entry (trimmed FIFO to
`maxHistoryItems`), then run the guarded sub-updates in source order.
`clockNow` is the single `now = Date.now()` read; note the source passes
`now` — not `interaction.timestamp` — as the timestamp argument of
`calculateInteractionWeight`. -/
def updateUserProfile (ctx : AppContext) (clockNow : ℚ) (p : UserProfile)
    (i : Interaction) : UserProfile :=
  let entry : BehaviorEntry := ⟨i, clockNow, calculateInteractionWeight ctx clockNow i clockNow⟩
  let bh := p.behaviorHistory ++ [entry]
  let bh := if maxHistoryItems < bh.length then bh.drop (bh.length - maxHistoryItems) else bh
  let p1 := { p with behaviorHistory := bh }
  let p2 := match i.category with
    | some c => if c ≠ "" then updateCategoryAffinity p1 c i.type else p1
    | none => p1
  let p3 := match i.brand with
    | some b => if b ≠ "" then updateBrandAffinity p2 b i.type else p2
    | none => p2
  let p4 := match i.price with
    | some pr => if pr ≠ 0 then updatePricePreferences p3 pr else p3
    | none => p3
  let p5 := if strTruthy i.style || i.tags.isSome
    then updateStyleProfile p4 i.style i.tags else p4
  let p6 := updateConversionMetrics clockNow p5 i
  { p6 with totalInteractions := p6.totalInteractions + 1 }

/-- The key set of an association list, modelling `Object.keys` (the
source only ever takes unions, intersections and sums over these, all of
which are order-insensitive, so a `Finset` is a faithful model). -/
def keysOf (l : List (String × ℚ)) : Finset String := (l.map Prod.fst).toFinset

/-- Source `calculateCategorySimilarity`: cosine similarity of the two
affinity vectors over the union of category keys; 0 when the union is
empty or either norm is 0. -/
noncomputable def calculateCategorySimilarity (p1 p2 : UserProfile) : ℝ :=
  let allCategories := keysOf p1.categoryAffinities ∪ keysOf p2.categoryAffinities
  if allCategories.card = 0 then 0
  else
    let a1 : String → ℝ := fun c => (affQ p1.categoryAffinities c : ℝ)
    let a2 : String → ℝ := fun c => (affQ p2.categoryAffinities c : ℝ)
    let dotProduct := ∑ c ∈ allCategories, a1 c * a2 c
    let norm1 := ∑ c ∈ allCategories, a1 c * a1 c
    let norm2 := ∑ c ∈ allCategories, a2 c * a2 c
    if norm1 = 0 ∨ norm2 = 0 then 0
    else dotProduct / (Real.sqrt norm1 * Real.sqrt norm2)

/-- Source `calculateBrandSimilarity`: Jaccard index of the brand key sets,
0 when the union is empty. -/
def calculateBrandSimilarity (p1 p2 : UserProfile) : ℚ :=
  let brands1 := keysOf p1.brandAffinities
  let brands2 := keysOf p2.brandAffinities
  let intersection := brands1 ∩ brands2
  let union := brands1 ∪ brands2
  if 0 < union.card then (intersection.card : ℚ) / union.card else 0

/-- The effective range `profile.preferredPriceRange || profile.priceRange`
(objects are always truthy in JS, so a present preferred range wins). -/
def effectiveRange (p : UserProfile) : PriceRange :=
  p.preferredPriceRange.getD p.priceRange

/-- Source `calculatePriceSimilarity`: overlap of the two effective ranges
over the span of their union, computed with JS number semantics (the
`!range1 || !range2` null guard is vacuous here since both ranges always
exist). -/
def calculatePriceSimilarity (p1 p2 : UserProfile) : JSNum :=
  let range1 := effectiveRange p1
  let range2 := effectiveRange p2
  let overlap := JSNum.maxJ (.fin 0)
    (JSNum.sub (JSNum.minJ range1.max range2.max) (JSNum.maxJ range1.min range2.min))
  let totalRange := JSNum.sub (JSNum.maxJ range1.max range2.max)
    (JSNum.minJ range1.min range2.min)
  if JSNum.gtB totalRange (.fin 0) then JSNum.div overlap totalRange else .fin 0

/-- Source `calculateStyleSimilarity`: average over the union of style
tokens of `min(count1,count2) / max(count1,count2,1)`; 0 when the union is
empty. -/
def calculateStyleSimilarity (p1 p2 : UserProfile) : ℚ :=
  let styles1 := p1.styleProfile.styles.getD []
  let styles2 := p2.styleProfile.styles.getD []
  let allStyles := keysOf styles1 ∪ keysOf styles2
  if allStyles.card = 0 then 0
  else
    let total := ∑ s ∈ allStyles,
      min (affQ styles1 s) (affQ styles2 s) /
        max (max (affQ styles1 s) (affQ styles2 s)) 1
    total / allStyles.card

/-- Source `calculateUserSimilarity` on two resolved profiles: the
0.4/0.3/0.2/0.1 weighted blend, composed with JS number semantics because
the price term can be `NaN` or infinite. -/
noncomputable def calculateUserSimilarity (p1 p2 : UserProfile) : RVal :=
  let categorySimilarity := calculateCategorySimilarity p1 p2
  let brandSimilarity := calculateBrandSimilarity p1 p2
  let priceSimilarity := calculatePriceSimilarity p1 p2
  let styleSimilarity := calculateStyleSimilarity p1 p2
  RVal.add
    (RVal.add
      (RVal.add (RVal.fin (categorySimilarity * (4 / 10)))
        (RVal.fin ((brandSimilarity : ℝ) * (3 / 10))))
      (RVal.mul priceSimilarity.toRVal (RVal.fin (2 / 10))))
    (RVal.fin ((styleSimilarity : ℝ) * (1 / 10)))

/-- The `userProfiles` map resolved through `getUserProfile`: a missing
user id yields a fresh profile. -/
def getUserProfile (store : List (String × UserProfile)) (userId : String) :
    UserProfile :=
  (store.lookup userId).getD (createNewUserProfile userId)

/-- JS `similarity > 0.1` threshold test (`false` on `NaN`). -/
noncomputable def RVal.gtQ (v : RVal) (q : ℚ) : Bool :=
  match v with
  | .nan => false
  | .inf => true
  | .ninf => false
  | .fin x => decide ((q : ℝ) < x)

/-- Descending-order comparator used to model the stable
`sort((a,b) => b.similarity - a.similarity)`; its value on special JS
numbers is irrelevant to every claim (they are filtered out beforehand or
compared only propositionally). -/
noncomputable def RVal.geB : RVal → RVal → Bool
  | .fin a, .fin b => decide (b ≤ a)
  | .inf, _ => true
  | _, .inf => false
  | .nan, _ => true
  | _, .nan => false
  | .ninf, .ninf => true
  | .ninf, _ => false
  | _, .ninf => true

/-- Source `findSimilarUsers(userId, limit)`: similarity of the target
against every other stored profile, filtered by the 0.1 threshold, sorted
descending (stable) and truncated. -/
noncomputable def findSimilarUsers (store : List (String × UserProfile))
    (userId : String) (limit : ℕ) : List (String × RVal) :=
  let similarities := (store.map Prod.fst).filterMap (fun otherUserId =>
    if otherUserId ≠ userId then
      let similarity := calculateUserSimilarity (getUserProfile store userId)
        (getUserProfile store otherUserId)
      if similarity.gtQ (1 / 10) then some (otherUserId, similarity) else none
    else none)
  (similarities.mergeSort (fun a b => RVal.geB a.2 b.2)).take limit

/-- A `{product, score}` record as pushed by the recommenders. -/
structure ScoredProduct where
  product : Product
  score : ℚ
deriving DecidableEq

/-- The price test of `getContentBasedRecommendations`:
`product.price >= range.min && product.price <= range.max` with JS
comparison semantics (an absent price fails both comparisons). -/
def priceWithinRange (r : PriceRange) (price : Option ℚ) : Bool :=
  match price with
  | none => false
  | some q => JSNum.geB (.fin q) r.min && JSNum.leB (.fin q) r.max

/-- Source `getContentBasedRecommendations` on a resolved profile:
per-product affinity blend, keeping only positive scores, sorted
descending (stable) and truncated. A product with an empty tag array
while the profile has a tag map makes the JS score `NaN` (0/0), which
fails `score > 0` and drops the product. -/
def getContentBasedRecommendations (p : UserProfile) (products : List Product)
    (limit : ℕ) : List Product :=
  let recommendations : List ScoredProduct := products.filterMap (fun product =>
    let s1 := affQ p.categoryAffinities product.category * (4 / 10)
    let s2 := s1 + affQ p.brandAffinities product.brand * (3 / 10)
    let s3 := s2 + (if priceWithinRange (effectiveRange p) product.price
      then 2 / 10 else 0)
    match product.tags, p.styleProfile.tags with
    | some ts, some profileTags =>
        if ts.length = 0 then none
        else
          let styleScore := (ts.foldl (fun sum tag => sum + affQ profileTags tag) 0) /
            (ts.length : ℚ)
          let s4 := s3 + styleScore * (1 / 10)
          if 0 < s4 then some ⟨product, s4⟩ else none
    | _, _ => if 0 < s3 then some ⟨product, s3⟩ else none)
  (((recommendations.mergeSort (fun a b => decide (b.score ≤ a.score))).take
    limit).map (·.product))

/-- Association-list read over natural keys (JS `Map.get`). -/
def mapGet {α : Type} (m : List (Nat × α)) (k : Nat) : Option α :=
  match m with
  | [] => none
  | (k2, v) :: rest => if k2 = k then some v else mapGet rest k

/-- Association-list write over an arbitrary key type (JS `Map.set`, which
keeps the original insertion position when updating). -/
def mapSet {α : Type} (m : List (Nat × α)) (k : Nat) (v : α) : List (Nat × α) :=
  match m with
  | [] => [(k, v)]
  | (k2, w) :: rest => if k2 = k then (k2, v) :: rest else (k2, w) :: mapSet rest k v

/-- JS `(map.get(id) || 0)` on a possibly-`NaN` accumulator: absent and
`NaN` (both falsy) are replaced by 0. -/
def rvOrZero : Option RVal → RVal
  | none => .fin 0
  | some .nan => .fin 0
  | some v => v

/-- Source `getCollaborativeRecommendations`: when no similar users exist,
fall back entirely to content-based scoring; otherwise accumulate
`similarity * interaction.weight` over similar users' purchase and
add-to-cart history entries whose product is in the candidate list, sort
descending and truncate. -/
noncomputable def getCollaborativeRecommendations (store : List (String × UserProfile))
    (userId : String) (products : List Product) (limit : ℕ) : List Product :=
  let similarUsers := findSimilarUsers store userId minSimilarUsers
  if similarUsers.length = 0 then
    getContentBasedRecommendations (getUserProfile store userId) products limit
  else
    let productScores := similarUsers.foldl (fun m su =>
      let similarProfile := getUserProfile store su.1
      similarProfile.behaviorHistory.foldl (fun m entry =>
        if entry.interaction.type = "purchase" ∨ entry.interaction.type = "add_to_cart" then
          match entry.interaction.productId with
          | some pid =>
              match products.find? (fun pr => pr.id = pid) with
              | some product =>
                  let score := RVal.mul su.2 (RVal.fin (entry.weight : ℝ))
                  mapSet m product.id (RVal.add (rvOrZero (mapGet m product.id)) score)
              | none => m
          | none => m
        else m) m) ([] : List (Nat × RVal))
    ((productScores.mergeSort (fun a b => RVal.geB a.2 b.2)).take limit).filterMap
      (fun e => products.find? (fun pr => pr.id = e.1))

/-- The first pass of `applyDiversityFilter` over index-tagged
recommendations. The source counts `Array.from(usedCategories)` — a
`Set` — so `categoryCount` is only a 0/1 indicator of whether the
category has been used before, not a running item count. -/
def diversityFirstPass (limit : ℕ) :
    List (ℕ × ScoredProduct) → List (ℕ × ScoredProduct) → List String →
      List (ℕ × ScoredProduct)
  | [], sel, _ => sel
  | r :: rest, sel, used =>
    if limit ≤ sel.length then sel
    else
      let category := r.2.product.category
      let categoryCount := (used.filter (fun c => c = category)).length
      if categoryCount < jsCeil ((limit : ℚ) * diversityFactor) then
        diversityFirstPass limit rest (sel ++ [r])
          (if category ∈ used then used else used ++ [category])
      else diversityFirstPass limit rest sel used

/-- The second pass of `applyDiversityFilter`: fill remaining slots with
items not yet selected; `diverseRecs.includes(rec)` is JS reference
equality, modelled by the entry's index. -/
def diversitySecondPass (limit : ℕ) :
    List (ℕ × ScoredProduct) → List (ℕ × ScoredProduct) → List (ℕ × ScoredProduct)
  | [], sel => sel
  | r :: rest, sel =>
    if limit ≤ sel.length then sel
    else if sel.any (fun x => x.1 = r.1) then diversitySecondPass limit rest sel
    else diversitySecondPass limit rest (sel ++ [r])

/-- Source `applyDiversityFilter`: identity below the limit, otherwise the
two passes followed by `slice(0, limit)`. -/
def applyDiversityFilter (recommendations : List ScoredProduct) (limit : ℕ) :
    List ScoredProduct :=
  if recommendations.length ≤ limit then recommendations
  else
    let indexed := recommendations.enum
    let firstSel := diversityFirstPass limit indexed [] []
    ((diversitySecondPass limit indexed firstSel).take limit).map (·.2)

/-- Source `getPersonalizedRecommendations`: oversampled collaborative and
content-based lists combined by normalized rank score with the hybrid
weight, sorted descending (stable), resolved against the candidate list
and passed through the diversity filter. -/
noncomputable def getPersonalizedRecommendations (store : List (String × UserProfile))
    (userId : String) (products : List Product) (limit : ℕ) : List Product :=
  let collaborativeRecs := getCollaborativeRecommendations store userId products (limit * 2)
  let contentBasedRecs :=
    getContentBasedRecommendations (getUserProfile store userId) products (limit * 2)
  let m1 := collaborativeRecs.enum.foldl (fun m e =>
    let score := ((collaborativeRecs.length : ℚ) - e.1) / collaborativeRecs.length
    mapSet m e.2.id ((mapGet m e.2.id).getD 0 + score * hybridWeight)) ([] : List (Nat × ℚ))
  let m2 := contentBasedRecs.enum.foldl (fun m e =>
    let score := ((contentBasedRecs.length : ℚ) - e.1) / contentBasedRecs.length
    mapSet m e.2.id ((mapGet m e.2.id).getD 0 + score * (1 - hybridWeight))) m1
  let sortedProducts := (m2.mergeSort (fun a b => decide (b.2 ≤ a.2))).filterMap
    (fun e => (products.find? (fun pr => pr.id = e.1)).map (fun pr => ScoredProduct.mk pr e.2))
  (applyDiversityFilter sortedProducts limit).map (·.product)

/-- Source `applyContextualBoost`: map each product to itself with a
`contextualBoost` field computed from the fixed multipliers; the list is
neither re-scored nor re-sorted. -/
def applyContextualBoost (ctx : AppContext) (recommendations : List Product) :
    List (Product × ℚ) :=
  recommendations.map (fun product =>
    let b0 : ℚ := 1
    let b1 := match product.tags with
      | some tags =>
          let t1 := if ctx.timeOfDay = "morning" ∧ tags.contains "work" = true
            then b0 * (6 / 5) else b0
          let t2 := if ctx.timeOfDay = "evening" ∧ tags.contains "casual" = true
            then t1 * (6 / 5) else t1
          if ctx.isWeekend = true ∧ tags.contains "leisure" = true
            then t2 * (11 / 10) else t2
      | none => b0
    let b2 := if product.season = some ctx.season then b1 * (13 / 10) else b1
    let b3 := if product.category = "outerwear" ∧ ctx.season = "winter"
      then b2 * (14 / 10) else b2
    let b4 := if product.category = "swimwear" ∧ ctx.season = "summer"
      then b3 * (14 / 10) else b3
    (product, b4))

/-! ## Helper lemmas -/

theorem ratFloor_eq_intFloor (a : ℚ) : Rat.floor a = ⌊a⌋ := by
  rw [Rat.floor_def', Rat.floor_def]

theorem jsCeil_eq_ceil (q : ℚ) : jsCeil q = (⌈q⌉).toNat := by
  rw [jsCeil, ratFloor_eq_intFloor, Int.floor_neg, neg_neg]

/-- Association-list read after a write at the same key. -/
theorem affQ_setA_same (l : List (String × ℚ)) (k : String) (v : ℚ) :
    affQ (setA l k v) k = v := by
  induction l with
  | nil => simp [setA, affQ]
  | cons hd tl ih =>
      by_cases h : hd.1 = k
      · simp [setA, h, affQ]
      · simpa [setA, h, affQ] using ih

/-- Association-list read after a write at a different key. -/
theorem affQ_setA_other (l : List (String × ℚ)) (k k2 : String) (v : ℚ)
    (h : k ≠ k2) : affQ (setA l k v) k2 = affQ l k2 := by
  induction l with
  | nil => simp [setA, affQ, h]
  | cons hd tl ih =>
      by_cases hh : hd.1 = k
      · simp [setA, hh, affQ, h]
      · simp only [setA, hh, if_false, affQ]
        rw [ih]

/-- A read from a list whose values are all nonnegative is nonnegative. -/
theorem affQ_nonneg {l : List (String × ℚ)} (h : ∀ kv ∈ l, 0 ≤ kv.2) (k : String) :
    0 ≤ affQ l k := by
  induction l with
  | nil => simp [affQ]
  | cons hd tl ih =>
      by_cases hh : hd.1 = k
      · simpa [affQ, hh] using h hd (by simp)
      · simpa [affQ, hh] using ih (fun kv hkv => h kv (by simp [hkv]))

/-- Every configured click weight, including the fallback, is positive. -/
theorem clickWeight_pos (t : String) : 0 < clickWeight t := by
  unfold clickWeight
  split <;> norm_num

/-- Every configured category weight, including the fallback, is positive. -/
theorem categoryWeightConfig_pos (c : String) : 0 < categoryWeightConfig c := by
  unfold categoryWeightConfig
  split <;> norm_num

theorem categoryAffinities_updateBrandAffinity (p : UserProfile) (b t : String) :
    (updateBrandAffinity p b t).categoryAffinities = p.categoryAffinities := rfl

theorem categoryAffinities_updatePricePreferences (p : UserProfile) (q : ℚ) :
    (updatePricePreferences p q).categoryAffinities = p.categoryAffinities := rfl

theorem categoryAffinities_updateStyleProfile (p : UserProfile) (s : Option String)
    (ts : Option (List String)) :
    (updateStyleProfile p s ts).categoryAffinities = p.categoryAffinities := rfl

theorem categoryAffinities_updateConversionMetrics (clockNow : ℚ) (p : UserProfile)
    (i : Interaction) :
    (updateConversionMetrics clockNow p i).categoryAffinities = p.categoryAffinities := by
  unfold updateConversionMetrics
  split <;> rfl

theorem categoryAffinities_ite (c : Prop) [Decidable c] (a b : UserProfile) :
    (if c then a else b).categoryAffinities =
      if c then a.categoryAffinities else b.categoryAffinities := by
  split <;> rfl

/-- How one `updateUserProfile` step acts on the category-affinity map:
only the guarded `updateCategoryAffinity` call touches it. -/
theorem categoryAffinities_updateUserProfile (ctx : AppContext) (clockNow : ℚ)
    (p : UserProfile) (i : Interaction) :
    (updateUserProfile ctx clockNow p i).categoryAffinities =
      (match i.category with
       | some c =>
           if c ≠ "" then
             setA p.categoryAffinities c
               (affQ p.categoryAffinities c +
                 clickWeight i.type * categoryWeightConfig c)
           else p.categoryAffinities
       | none => p.categoryAffinities) := by
  unfold updateUserProfile updateCategoryAffinity
  cases hc : i.category <;>
    cases i.brand <;> cases i.price <;>
      simp [categoryAffinities_updateConversionMetrics, categoryAffinities_ite,
        categoryAffinities_updateBrandAffinity,
        categoryAffinities_updatePricePreferences,
        categoryAffinities_updateStyleProfile]

/-! ## Shared example fixtures -/

/-- Winter-night weekday contextual snapshot used in the examples. -/
def exCtx : AppContext := ⟨"winter", "night", false⟩

/-- A fixed recording-time clock value used in the examples. -/
def exNow : ℚ := 1700000000000

/-! ## C2 -/

/-- C2 (counterexample): a view interaction on category "clothing" whose
season matches the context carries the composite weight
1.0 × 1.0 × 1.2 = 1.2 in `behaviorHistory`, but the category affinity
rises by `clickWeights.view × categoryWeights.clothing = 1`, not by the
claimed `1.2 × 1 = 1.2`. -/
theorem C2_counterexample :
    let i : Interaction :=
      ⟨"view", none, some "clothing", none, none, none, none, some "winter", none, exNow⟩
    let p0 := createNewUserProfile "u"
    let p1 := updateUserProfile exCtx exNow p0 i
    p1.behaviorHistory.map (fun e => e.weight) = [12 / 10] ∧
      affQ p1.categoryAffinities "clothing" = 1 ∧
      categoryWeightConfig "clothing" = 1 ∧
      ¬ affQ p1.categoryAffinities "clothing" =
          affQ p0.categoryAffinities "clothing" + (12 / 10) * categoryWeightConfig "clothing" := by
  norm_num +decide [updateUserProfile, createNewUserProfile, exCtx, exNow,
    updateCategoryAffinity, updateConversionMetrics, updateStyleProfile, strTruthy,
    calculateInteractionWeight, calculateTimeWeight, calculateContextWeight, clickWeight,
    categoryWeightConfig, dayMs, affQ, setA, maxHistoryItems]

/-- C2 (amended): for every interaction carrying a truthy category,
`updateUserProfile` increases that category's affinity by exactly
`baseWeight(interaction.type) × categoryStaticWeight(category)` — the base
click weight alone; the composite weight (with time and context factors)
is only attached to the `behaviorHistory` entry. -/
theorem C2_amended (ctx : AppContext) (clockNow : ℚ) (p : UserProfile)
    (i : Interaction) (c : String) (hc : i.category = some c) (hne : c ≠ "") :
    affQ (updateUserProfile ctx clockNow p i).categoryAffinities c =
      affQ p.categoryAffinities c + clickWeight i.type * categoryWeightConfig c := by
  rw [categoryAffinities_updateUserProfile, hc]
  simp only [hne, ne_eq, not_false_eq_true, if_true]
  exact affQ_setA_same _ _ _

/-- C2 (witness): the amended statement evaluated on the counterexample's
interaction. -/
theorem C2_witness :
    let i : Interaction :=
      ⟨"view", none, some "clothing", none, none, none, none, some "winter", none, exNow⟩
    affQ (updateUserProfile exCtx exNow (createNewUserProfile "u") i).categoryAffinities
        "clothing" =
      affQ (createNewUserProfile "u").categoryAffinities "clothing" +
        clickWeight "view" * categoryWeightConfig "clothing" :=
  C2_amended exCtx exNow (createNewUserProfile "u") _ "clothing" rfl (by decide)

/-! ## C6 -/

/-- C6: the source hands the recording clock value — not the interaction's
own timestamp — to `calculateInteractionWeight`, so an interaction whose
own timestamp is 48 hours old is still stored with time weight 1.0 (its
full weight here is 1.0 = view base 1.0 × time 1.0 × context 1.0), while
the claim's bucketing of the interaction's own timestamp yields 0.8. -/
theorem C6_theorem :
    let i : Interaction :=
      ⟨"view", none, some "shoes", none, none, none, none, none, none, exNow - 48 * 3600000⟩
    ((updateUserProfile exCtx exNow (createNewUserProfile "u") i).behaviorHistory.map
      (fun e => e.weight) = [1]) ∧
      calculateTimeWeight exNow (exNow - 48 * 3600000) = 4 / 5 ∧ ¬ (1 : ℚ) = 4 / 5 := by
  norm_num +decide [updateUserProfile, createNewUserProfile, exCtx, exNow,
    updateCategoryAffinity, updateConversionMetrics, updateStyleProfile, strTruthy,
    calculateInteractionWeight, calculateTimeWeight, calculateContextWeight, clickWeight,
    categoryWeightConfig, dayMs, affQ, setA, maxHistoryItems]

/-! ## C10 -/

/-- C10 (counterexample): after one priced view (price 500) the profile
has no purchase prices at all (so no `preferredPriceRange`), yet a product
priced 100 fails the `scoreContentBased` price test: `updatePricePreferences`
raised `priceRange.min` from the falsy 0 to 500. -/
theorem C10_counterexample :
    let i : Interaction :=
      ⟨"view", none, none, none, some 500, none, none, none, none, exNow⟩
    let p := updateUserProfile exCtx exNow (createNewUserProfile "u") i
    p.purchaseHistory.length < 5 ∧ p.preferredPriceRange = none ∧
      p.priceRange = ⟨.fin 500, .inf⟩ ∧
      priceWithinRange (effectiveRange p) (some 100) = false := by
  norm_num +decide [updateUserProfile, createNewUserProfile, exCtx, exNow,
    updatePricePreferences, updateConversionMetrics, updateStyleProfile, strTruthy,
    JSNum.truthy, JSNum.ltB, JSNum.gtB, JSNum.geB, JSNum.leB, maxHistoryItems,
    List.mergeSort, priceWithinRange, effectiveRange]

/-- C10 (amended): a fresh profile has `priceRange = {min: 0, max: ∞}` and
`updatePricePreferences` never moves an infinite max bound; but it raises
the min bound (the `!priceRange.min` guard is true for the falsy 0), so
only for a profile that still has the untouched `{0, ∞}` range and no
preferred range does every product with a non-negative numeric price pass
the `scoreContentBased` price test (and so receive the 0.2 contribution). -/
theorem C10_amended (u : String) :
    (createNewUserProfile u).priceRange = ⟨.fin 0, .inf⟩ ∧
      (∀ (p : UserProfile) (price : ℚ), p.priceRange.max = .inf →
        (updatePricePreferences p price).priceRange.max = .inf) ∧
      (∀ (p : UserProfile) (q : ℚ), p.preferredPriceRange = none →
        p.priceRange = ⟨.fin 0, .inf⟩ → 0 ≤ q →
        priceWithinRange (effectiveRange p) (some q) = true) := by
  refine ⟨rfl, ?_, ?_⟩
  · intro p price h
    simp [updatePricePreferences, h, JSNum.truthy, JSNum.gtB, JSNum.ltB]
  · intro p q h1 h2 hq
    simp [priceWithinRange, effectiveRange, h1, h2, JSNum.geB, JSNum.leB, hq]

/-- C10 (witness): the amended statement evaluated on a fresh profile and
the price 100. -/
theorem C10_witness :
    (createNewUserProfile "u").priceRange = ⟨.fin 0, .inf⟩ ∧
      (updatePricePreferences (createNewUserProfile "u") 500).priceRange.max = .inf ∧
      priceWithinRange (effectiveRange (createNewUserProfile "u")) (some 100) = true :=
  ⟨(C10_amended "u").1, (C10_amended "u").2.1 _ 500 rfl,
    (C10_amended "u").2.2 _ 100 rfl rfl (by norm_num)⟩

/-! ## C7 -/

/-- The morning/work-tag boost factor of `applyContextualBoost`. -/
def morningWorkFactor (ctx : AppContext) (p : Product) : ℚ :=
  match p.tags with
  | some tags => if ctx.timeOfDay = "morning" ∧ tags.contains "work" = true then 6 / 5 else 1
  | none => 1

/-- The evening/casual-tag boost factor of `applyContextualBoost`. -/
def eveningCasualFactor (ctx : AppContext) (p : Product) : ℚ :=
  match p.tags with
  | some tags => if ctx.timeOfDay = "evening" ∧ tags.contains "casual" = true then 6 / 5 else 1
  | none => 1

/-- The weekend/leisure-tag boost factor of `applyContextualBoost`. -/
def weekendLeisureFactor (ctx : AppContext) (p : Product) : ℚ :=
  match p.tags with
  | some tags => if ctx.isWeekend = true ∧ tags.contains "leisure" = true then 11 / 10 else 1
  | none => 1

/-- The season-match boost factor of `applyContextualBoost`. -/
def seasonMatchFactor (ctx : AppContext) (p : Product) : ℚ :=
  if p.season = some ctx.season then 13 / 10 else 1

/-- The outerwear/winter boost factor of `applyContextualBoost`. -/
def outerwearWinterFactor (ctx : AppContext) (p : Product) : ℚ :=
  if p.category = "outerwear" ∧ ctx.season = "winter" then 14 / 10 else 1

/-- The swimwear/summer boost factor of `applyContextualBoost`. -/
def swimwearSummerFactor (ctx : AppContext) (p : Product) : ℚ :=
  if p.category = "swimwear" ∧ ctx.season = "summer" then 14 / 10 else 1

/-- C7 (counterexample): with a winter context, a season-matching product
(boost 1.3) listed second stays second: `applyContextualBoost` attaches
the boost as a separate field, leaves every score untouched and does not
re-sort, so the returned list is not in descending order of boosted
score. -/
theorem C7_counterexample :
    let p1 : Product := ⟨1, "shoes", "b", none, none, none⟩
    let p2 : Product := ⟨2, "coat", "b", none, none, some "winter"⟩
    applyContextualBoost exCtx [p1, p2] = [(p1, 1), (p2, 13 / 10)] ∧
      ¬ ((applyContextualBoost exCtx [p1, p2]).map Prod.snd).Sorted
          (fun a b => b ≤ a) := by
  norm_num +decide [applyContextualBoost, exCtx, List.Sorted]

/-- C7 (amended): `applyContextualBoost` keeps the input order (it never
re-sorts and never rewrites the stored score) and attaches to each product
a boost equal to the product of six independent fixed multiplicative
factors — ×1.2 morning/work, ×1.2 evening/casual, ×1.1 weekend/leisure,
×1.3 season match, ×1.4 outerwear+winter, ×1.4 swimwear+summer. -/
theorem C7_amended (ctx : AppContext) (recommendations : List Product) :
    applyContextualBoost ctx recommendations =
      recommendations.map (fun p =>
        (p, morningWorkFactor ctx p * eveningCasualFactor ctx p *
          weekendLeisureFactor ctx p * seasonMatchFactor ctx p *
          outerwearWinterFactor ctx p * swimwearSummerFactor ctx p)) := by
  unfold applyContextualBoost
  apply List.map_congr_left
  intro p _
  unfold morningWorkFactor eveningCasualFactor weekendLeisureFactor
    seasonMatchFactor outerwearWinterFactor swimwearSummerFactor
  cases p.tags with
  | none => simp only [Prod.mk.injEq, true_and]; split_ifs <;> ring
  | some ts =>
      simp only [Prod.mk.injEq, true_and]
      split_ifs <;> ring

/-! ## C3 -/

/-- In a duplicate-free list at most one element equals any given value. -/
theorem filter_eq_length_le_one {l : List String} (h : l.Nodup) (c : String) :
    (l.filter (fun x => x = c)).length ≤ 1 := by
  induction l with
  | nil => simp
  | cons a t ih =>
      rw [List.nodup_cons] at h
      by_cases hac : a = c
      · subst hac
        have : t.filter (fun x => x = a) = [] := by
          rw [List.filter_eq_nil_iff]
          intro x hx
          simp only [decide_eq_true_eq]
          intro hxa
          exact h.1 (hxa ▸ hx)
        simp [this]
      · simpa [hac] using ih h.2

/-- The JS `Set.add` model preserves freedom from duplicates. -/
theorem addUsed_nodup {used : List String} (h : used.Nodup) (c : String) :
    (if c ∈ used then used else used ++ [c]).Nodup := by
  split
  · exact h
  · next hc =>
      rw [List.nodup_append]
      exact ⟨h, List.nodup_singleton c, by simpa using hc⟩

/-- When the per-category cap is at least 2, the 0/1 used-category
indicator can never reach it, so the first diversity pass just takes
elements in order until the limit is full. -/
theorem diversityFirstPass_take (limit : ℕ)
    (hcap : 2 ≤ jsCeil ((limit : ℚ) * diversityFactor)) :
    ∀ (l sel : List (ℕ × ScoredProduct)) (used : List String), used.Nodup →
      diversityFirstPass limit l sel used = sel ++ l.take (limit - sel.length) := by
  intro l
  induction l with
  | nil => intro sel used _; simp [diversityFirstPass]
  | cons r rest ih =>
      intro sel used hused
      rw [diversityFirstPass]
      by_cases hfull : limit ≤ sel.length
      · rw [if_pos hfull, Nat.sub_eq_zero_of_le hfull, List.take_zero, List.append_nil]
      · rw [if_neg hfull]
        have hcount : ((used.filter (fun c => c = r.2.product.category)).length <
            jsCeil ((limit : ℚ) * diversityFactor)) := by
          have := filter_eq_length_le_one hused r.2.product.category
          omega
        rw [if_pos hcount, ih (sel ++ [r]) _ (addUsed_nodup hused _)]
        have hk : limit - sel.length = (limit - (sel ++ [r]).length) + 1 := by
          simp only [List.length_append, List.length_singleton]
          omega
        rw [hk, List.take_succ_cons, List.append_assoc, List.singleton_append]

/-- The second diversity pass does nothing once the selection is full. -/
theorem diversitySecondPass_of_full (limit : ℕ) :
    ∀ (l sel : List (ℕ × ScoredProduct)), limit ≤ sel.length →
      diversitySecondPass limit l sel = sel := by
  intro l
  induction l with
  | nil => intro sel _; rfl
  | cons r rest _ => intro sel h; rw [diversitySecondPass, if_pos h]

/-- A catalog product fixture with the given id and category. -/
def catProduct (n : Nat) (c : String) : Product := ⟨n, c, "brand", none, none, none⟩

/-- A sorted candidate pool: five products of category "x" followed by two
of "y" and one of "z" (scores descending). -/
def diversityPool : List ScoredProduct :=
  [⟨catProduct 1 "x", 8⟩, ⟨catProduct 2 "x", 7⟩, ⟨catProduct 3 "x", 6⟩,
   ⟨catProduct 4 "x", 5⟩, ⟨catProduct 5 "x", 4⟩, ⟨catProduct 6 "y", 3⟩,
   ⟨catProduct 7 "y", 2⟩, ⟨catProduct 8 "z", 1⟩]

/-- C3 (counterexample): with limit 5 the cap is ceil(5×0.3) = 2 and the
pool could fill all five slots within the cap (it has three non-"x"
items), yet the filter returns the first five items — five of category
"x" — because the first pass compares a 0/1 indicator with the cap, never
a running item count. -/
theorem C3_counterexample :
    jsCeil ((5 : ℚ) * diversityFactor) = 2 ∧
      applyDiversityFilter diversityPool 5 = diversityPool.take 5 ∧
      ((applyDiversityFilter diversityPool 5).filter
        (fun r => r.product.category = "x")).length = 5 ∧
      (diversityPool.filter (fun r => ¬ r.product.category = "x")).length = 3 := by
  have hceil : jsCeil ((5 : ℚ) * diversityFactor) = 2 := by
    rw [jsCeil_eq_ceil]
    have h : (⌈(5 : ℚ) * diversityFactor⌉ : ℤ) = 2 := by
      rw [Int.ceil_eq_iff]
      constructor <;> norm_num [diversityFactor]
    rw [h]
    rfl
  have h2 : applyDiversityFilter diversityPool 5 = diversityPool.take 5 := by
    norm_num [applyDiversityFilter, diversityFirstPass, diversitySecondPass,
      hceil, diversityPool, catProduct, List.enum, List.enumFrom]
  refine ⟨hceil, h2, ?_, ?_⟩
  · rw [h2]
    decide
  · decide

/-- C3 (amended): the first pass admits a product whenever the 0/1
indicator of its category having been used before is below
ceil(limit × diversityFactor); since that indicator never exceeds 1, for
every limit ≥ 4 (cap ≥ 2) the filter admits everything and degenerates to
`take limit`, so categories may repeat without bound even when the pool
could satisfy the limit within the cap. Only for limit ≤ 3 (cap = 1) does
the first pass limit each category to a single item, with the second pass
refilling regardless of category. -/
theorem C3_amended (recs : List ScoredProduct) (limit : ℕ) (h : 4 ≤ limit) :
    2 ≤ jsCeil ((limit : ℚ) * diversityFactor) ∧
      applyDiversityFilter recs limit = recs.take limit := by
  have hcap : 2 ≤ jsCeil ((limit : ℚ) * diversityFactor) := by
    rw [jsCeil_eq_ceil]
    have h1 : (1 : ℤ) < ⌈(limit : ℚ) * diversityFactor⌉ := by
      rw [Int.lt_ceil]
      have h4 : (4 : ℚ) ≤ (limit : ℚ) := by exact_mod_cast h
      rw [diversityFactor]
      push_cast
      linarith
    omega
  refine ⟨hcap, ?_⟩
  unfold applyDiversityFilter
  split
  · next hle => rw [List.take_of_length_le hle]
  · next hgt =>
      show List.map (fun x => x.2)
        (List.take limit (diversitySecondPass limit recs.enum
          (diversityFirstPass limit recs.enum [] []))) = List.take limit recs
      rw [diversityFirstPass_take limit hcap recs.enum [] [] List.nodup_nil]
      have hlen : ((recs.enum).take limit).length = limit := by
        rw [List.length_take, List.enum_length]
        omega
      simp only [List.nil_append, List.length_nil, Nat.sub_zero]
      rw [diversitySecondPass_of_full limit _ _ (le_of_eq hlen.symm),
        List.take_of_length_le (le_of_eq hlen), List.map_take,
        List.enum_map_snd]

/-- C3 (witness): the amended statement evaluated at limit 5 on the
example pool. -/
theorem C3_witness :
    (4 ≤ 5 ∧ 2 ≤ jsCeil ((5 : ℚ) * diversityFactor)) ∧
      applyDiversityFilter diversityPool 5 = diversityPool.take 5 :=
  ⟨⟨by norm_num, (C3_amended diversityPool 5 (by norm_num)).1⟩,
    (C3_amended diversityPool 5 (by norm_num)).2⟩

/-! ## C9 -/

/-- A view interaction with no category at all. -/
def exViewNoCat : Interaction :=
  ⟨"view", none, none, none, none, none, none, none, none, exNow⟩

/-- C9: starting from a fresh profile, every category affinity stays
nonnegative after any interaction sequence, each single
`recordInteraction` step can only keep or increase an affinity, and a
step leaves the affinity of `c` unchanged unless its interaction carries
the (truthy) category `c`. -/
theorem C9_theorem (ctx : AppContext) (clockNow : ℚ) (u : String)
    (l : List Interaction) (c : String) :
    0 ≤ affQ (l.foldl (updateUserProfile ctx clockNow)
        (createNewUserProfile u)).categoryAffinities c ∧
      (∀ (p : UserProfile) (i : Interaction),
        affQ p.categoryAffinities c ≤
          affQ (updateUserProfile ctx clockNow p i).categoryAffinities c) ∧
      (∀ (p : UserProfile) (i : Interaction),
        ¬ (i.category = some c ∧ c ≠ "") →
        affQ (updateUserProfile ctx clockNow p i).categoryAffinities c =
          affQ p.categoryAffinities c) := by
  have hstep : ∀ (p : UserProfile) (i : Interaction),
      affQ p.categoryAffinities c ≤
        affQ (updateUserProfile ctx clockNow p i).categoryAffinities c := by
    intro p i
    rw [categoryAffinities_updateUserProfile]
    cases hc : i.category with
    | none => simp
    | some c2 =>
        by_cases h2 : c2 = ""
        · simp [h2]
        · simp only [h2, ne_eq, not_false_eq_true, if_true]
          by_cases hcc : c2 = c
          · subst hcc
            rw [affQ_setA_same]
            have h1 := clickWeight_pos i.type
            have h3 := categoryWeightConfig_pos c2
            nlinarith
          · rw [affQ_setA_other _ _ _ _ hcc]
  refine ⟨?_, hstep, ?_⟩
  · have hnn : ∀ (l2 : List Interaction) (p : UserProfile),
        0 ≤ affQ p.categoryAffinities c →
        0 ≤ affQ (l2.foldl (updateUserProfile ctx clockNow) p).categoryAffinities c := by
      intro l2
      induction l2 with
      | nil => intro p hp; simpa using hp
      | cons i t ih => intro p hp; exact ih _ (le_trans hp (hstep p i))
    refine hnn l _ ?_
    simp [createNewUserProfile, affQ]
  · intro p i hni
    rw [categoryAffinities_updateUserProfile]
    cases hc : i.category with
    | none => simp
    | some c2 =>
        by_cases h2 : c2 = ""
        · simp [h2]
        · have hcc : c2 ≠ c := by
            intro he
            exact hni ⟨by rw [hc, he], by rw [← he]; exact h2⟩
          simp only [h2, ne_eq, not_false_eq_true, if_true]
          rw [affQ_setA_other _ _ _ _ hcc]

/-- C9 (witness): the theorem evaluated on a one-step sequence, with the
no-change clause discharged for an interaction without a category. -/
theorem C9_witness :
    0 ≤ affQ ([exViewNoCat].foldl (updateUserProfile exCtx exNow)
        (createNewUserProfile "u")).categoryAffinities "clothing" ∧
      affQ (updateUserProfile exCtx exNow (createNewUserProfile "u")
          exViewNoCat).categoryAffinities "clothing" =
        affQ (createNewUserProfile "u").categoryAffinities "clothing" :=
  ⟨(C9_theorem exCtx exNow "u" [exViewNoCat] "clothing").1,
    (C9_theorem exCtx exNow "u" [] "clothing").2.2 _ exViewNoCat
      (by simp [exViewNoCat])⟩

/-! ## C8 -/

/-- C8: when `findSimilarUsers` comes back empty, the collaborative
recommender returns exactly the content-based result for the same resolved
profile, candidate list and limit — a total fallback, not a merge. -/
theorem C8_theorem (store : List (String × UserProfile)) (userId : String)
    (products : List Product) (limit : ℕ)
    (h : findSimilarUsers store userId minSimilarUsers = []) :
    getCollaborativeRecommendations store userId products limit =
      getContentBasedRecommendations (getUserProfile store userId) products limit := by
  unfold getCollaborativeRecommendations
  rw [h]
  simp

/-- A one-user profile store: the target user has nobody to compare with. -/
def exStore : List (String × UserProfile) := [("alice", createNewUserProfile "alice")]

/-- A one-product candidate list for the fallback example. -/
def exProducts : List Product := [catProduct 1 "clothing"]

/-- C8 (witness): with a store containing only the target user,
`findSimilarUsers` is empty and the fallback equality holds. -/
theorem C8_witness :
    findSimilarUsers exStore "alice" minSimilarUsers = [] ∧
      getCollaborativeRecommendations exStore "alice" exProducts 10 =
        getContentBasedRecommendations (getUserProfile exStore "alice") exProducts 10 := by
  have hempty : findSimilarUsers exStore "alice" minSimilarUsers = [] := by
    simp [findSimilarUsers, exStore]
  exact ⟨hempty, C8_theorem exStore "alice" exProducts 10 hempty⟩

/-! ## C5 -/

theorem JSNum.minJ_comm (a b : JSNum) : JSNum.minJ a b = JSNum.minJ b a := by
  cases a <;> cases b <;> simp [JSNum.minJ, min_comm]

theorem JSNum.maxJ_comm (a b : JSNum) : JSNum.maxJ a b = JSNum.maxJ b a := by
  cases a <;> cases b <;> simp [JSNum.maxJ, max_comm]

theorem calculateCategorySimilarity_comm (p1 p2 : UserProfile) :
    calculateCategorySimilarity p1 p2 = calculateCategorySimilarity p2 p1 := by
  simp only [calculateCategorySimilarity]
  rw [Finset.union_comm (keysOf p2.categoryAffinities) (keysOf p1.categoryAffinities)]
  simp only [mul_comm, or_comm]

theorem calculateBrandSimilarity_comm (p1 p2 : UserProfile) :
    calculateBrandSimilarity p1 p2 = calculateBrandSimilarity p2 p1 := by
  simp only [calculateBrandSimilarity]
  rw [Finset.union_comm (keysOf p2.brandAffinities) (keysOf p1.brandAffinities),
    Finset.inter_comm (keysOf p2.brandAffinities) (keysOf p1.brandAffinities)]

theorem calculateStyleSimilarity_comm (p1 p2 : UserProfile) :
    calculateStyleSimilarity p1 p2 = calculateStyleSimilarity p2 p1 := by
  simp only [calculateStyleSimilarity]
  rw [Finset.union_comm (keysOf (p2.styleProfile.styles.getD []))
    (keysOf (p1.styleProfile.styles.getD []))]
  simp only [min_comm, max_comm]

theorem calculatePriceSimilarity_comm (p1 p2 : UserProfile) :
    calculatePriceSimilarity p1 p2 = calculatePriceSimilarity p2 p1 := by
  simp only [calculatePriceSimilarity]
  rw [JSNum.minJ_comm (effectiveRange p2).max (effectiveRange p1).max,
    JSNum.maxJ_comm (effectiveRange p2).min (effectiveRange p1).min,
    JSNum.maxJ_comm (effectiveRange p2).max (effectiveRange p1).max,
    JSNum.minJ_comm (effectiveRange p2).min (effectiveRange p1).min]

/-- C5: `calculateUserSimilarity` is symmetric in its two profiles — each
of the four sub-similarities is built from commutative set and numeric
operations. -/
theorem C5_theorem (p1 p2 : UserProfile) :
    calculateUserSimilarity p1 p2 = calculateUserSimilarity p2 p1 := by
  unfold calculateUserSimilarity
  rw [calculateCategorySimilarity_comm, calculateBrandSimilarity_comm,
    calculatePriceSimilarity_comm, calculateStyleSimilarity_comm]

/-! ## C1 -/

/-- C1 (counterexample): for two fresh profiles — both carrying the
initial `priceRange = {min: 0, max: Infinity}` — the price ratio computes
`Infinity / Infinity = NaN` (the `totalRange > 0` guard passes because
`Infinity > 0`), and the blended similarity is `NaN`, not a value in
`[0, 1]`. -/
theorem C1_counterexample :
    calculatePriceSimilarity (createNewUserProfile "a") (createNewUserProfile "b") =
        JSNum.nan ∧
      calculateUserSimilarity (createNewUserProfile "a") (createNewUserProfile "b") =
        RVal.nan ∧
      ¬ (calculateUserSimilarity (createNewUserProfile "a")
          (createNewUserProfile "b")).inUnit := by
  have h2 : calculateUserSimilarity (createNewUserProfile "a")
      (createNewUserProfile "b") = RVal.nan := rfl
  refine ⟨rfl, h2, ?_⟩
  rw [h2]
  simp [RVal.inUnit]

theorem calculateBrandSimilarity_bounds (p1 p2 : UserProfile) :
    0 ≤ calculateBrandSimilarity p1 p2 ∧ calculateBrandSimilarity p1 p2 ≤ 1 := by
  simp only [calculateBrandSimilarity]
  split
  · next h =>
      have hpos : (0 : ℚ) <
          ((keysOf p1.brandAffinities ∪ keysOf p2.brandAffinities).card : ℚ) := by
        exact_mod_cast h
      constructor
      · positivity
      · rw [div_le_one hpos]
        exact_mod_cast Finset.card_le_card Finset.inter_subset_union
  · norm_num

theorem calculateStyleSimilarity_bounds (p1 p2 : UserProfile)
    (h1 : ∀ kv ∈ p1.styleProfile.styles.getD [], 0 ≤ kv.2)
    (h2 : ∀ kv ∈ p2.styleProfile.styles.getD [], 0 ≤ kv.2) :
    0 ≤ calculateStyleSimilarity p1 p2 ∧ calculateStyleSimilarity p1 p2 ≤ 1 := by
  simp only [calculateStyleSimilarity]
  split
  · norm_num
  · next h =>
      set s1 := p1.styleProfile.styles.getD [] with hs1
      set s2 := p2.styleProfile.styles.getD [] with hs2
      set S := keysOf s1 ∪ keysOf s2 with hS
      have hcard : (0 : ℚ) < (S.card : ℚ) := by
        have := Nat.pos_of_ne_zero h
        exact_mod_cast this
      have hterm : ∀ c ∈ S,
          (0 : ℚ) ≤ min (affQ s1 c) (affQ s2 c) /
              max (max (affQ s1 c) (affQ s2 c)) 1 ∧
            min (affQ s1 c) (affQ s2 c) /
              max (max (affQ s1 c) (affQ s2 c)) 1 ≤ 1 := by
        intro c _
        have ha := affQ_nonneg h1 c
        have hb := affQ_nonneg h2 c
        have hden : (0 : ℚ) < max (max (affQ s1 c) (affQ s2 c)) 1 :=
          lt_of_lt_of_le one_pos (le_max_right _ _)
        constructor
        · exact div_nonneg (le_min ha hb) (le_of_lt hden)
        · rw [div_le_one hden]
          exact le_trans (min_le_left _ _)
            (le_trans (le_max_left _ _) (le_max_left _ _))
      constructor
      · apply div_nonneg _ (le_of_lt hcard)
        exact Finset.sum_nonneg (fun c hc => (hterm c hc).1)
      · rw [div_le_one hcard]
        calc (∑ c ∈ S, min (affQ s1 c) (affQ s2 c) /
              max (max (affQ s1 c) (affQ s2 c)) 1)
            ≤ ∑ _c ∈ S, (1 : ℚ) := Finset.sum_le_sum (fun c hc => (hterm c hc).2)
          _ = (S.card : ℚ) := by simp

theorem calculateCategorySimilarity_bounds (p1 p2 : UserProfile)
    (h1 : ∀ kv ∈ p1.categoryAffinities, 0 ≤ kv.2)
    (h2 : ∀ kv ∈ p2.categoryAffinities, 0 ≤ kv.2) :
    0 ≤ calculateCategorySimilarity p1 p2 ∧ calculateCategorySimilarity p1 p2 ≤ 1 := by
  simp only [calculateCategorySimilarity]
  split
  · norm_num
  · next hcard =>
      set S := keysOf p1.categoryAffinities ∪ keysOf p2.categoryAffinities with hS
      set a1 : String → ℝ := fun c => ((affQ p1.categoryAffinities c : ℚ) : ℝ) with ha1
      set a2 : String → ℝ := fun c => ((affQ p2.categoryAffinities c : ℚ) : ℝ) with ha2
      have ha1n : ∀ c, 0 ≤ a1 c := fun c => by
        rw [ha1]
        simp only []
        exact_mod_cast affQ_nonneg h1 c
      have ha2n : ∀ c, 0 ≤ a2 c := fun c => by
        rw [ha2]
        simp only []
        exact_mod_cast affQ_nonneg h2 c
      split
      · norm_num
      · next hnz =>
          push_neg at hnz
          have hn1 : (0 : ℝ) < ∑ c ∈ S, a1 c * a1 c :=
            lt_of_le_of_ne (Finset.sum_nonneg (fun c _ => mul_self_nonneg _))
              (Ne.symm hnz.1)
          have hn2 : (0 : ℝ) < ∑ c ∈ S, a2 c * a2 c :=
            lt_of_le_of_ne (Finset.sum_nonneg (fun c _ => mul_self_nonneg _))
              (Ne.symm hnz.2)
          have hden : (0 : ℝ) <
              Real.sqrt (∑ c ∈ S, a1 c * a1 c) * Real.sqrt (∑ c ∈ S, a2 c * a2 c) :=
            mul_pos (Real.sqrt_pos.mpr hn1) (Real.sqrt_pos.mpr hn2)
          constructor
          · apply div_nonneg _ (le_of_lt hden)
            exact Finset.sum_nonneg (fun c _ => mul_nonneg (ha1n c) (ha2n c))
          · rw [div_le_one hden]
            have hcs := Real.sum_mul_le_sqrt_mul_sqrt S a1 a2
            simp only [pow_two] at hcs
            exact hcs

theorem calculatePriceSimilarity_fin_unit (p1 p2 : UserProfile)
    (h1 : ∃ a : ℚ, (effectiveRange p1).min = .fin a)
    (h2 : ∃ a : ℚ, (effectiveRange p2).min = .fin a)
    (h3 : (effectiveRange p1).max = .inf ∨ ∃ b : ℚ, (effectiveRange p1).max = .fin b)
    (h4 : (effectiveRange p2).max = .inf ∨ ∃ b : ℚ, (effectiveRange p2).max = .fin b)
    (h7 : ¬ ((effectiveRange p1).max = .inf ∧ (effectiveRange p2).max = .inf)) :
    ∃ q : ℚ, calculatePriceSimilarity p1 p2 = .fin q ∧ 0 ≤ q ∧ q ≤ 1 := by
  obtain ⟨a1, ha1⟩ := h1
  obtain ⟨a2, ha2⟩ := h2
  simp only [calculatePriceSimilarity]
  rcases h3 with hb1 | ⟨b1, hb1⟩ <;> rcases h4 with hb2 | ⟨b2, hb2⟩
  · exact absurd ⟨hb1, hb2⟩ h7
  · rw [ha1, ha2, hb1, hb2]
    refine ⟨0, ?_, le_refl 0, by norm_num⟩
    simp [JSNum.minJ, JSNum.maxJ, JSNum.sub, JSNum.gtB, JSNum.ltB, JSNum.div]
  · rw [ha1, ha2, hb1, hb2]
    refine ⟨0, ?_, le_refl 0, by norm_num⟩
    simp [JSNum.minJ, JSNum.maxJ, JSNum.sub, JSNum.gtB, JSNum.ltB, JSNum.div]
  · rw [ha1, ha2, hb1, hb2]
    simp only [JSNum.minJ, JSNum.maxJ, JSNum.sub]
    by_cases ht : (0 : ℚ) < max b1 b2 - min a1 a2
    · have hgt : JSNum.gtB (.fin (max b1 b2 - min a1 a2)) (.fin 0) = true := by
        simp [JSNum.gtB, JSNum.ltB, ht]
      rw [if_pos hgt]
      have htne : max b1 b2 - min a1 a2 ≠ 0 := ne_of_gt ht
      have hxle : min b1 b2 - max a1 a2 ≤ max b1 b2 - min a1 a2 :=
        sub_le_sub (min_le_max) (min_le_max)
      refine ⟨max 0 (min b1 b2 - max a1 a2) / (max b1 b2 - min a1 a2), ?_, ?_, ?_⟩
      · simp [JSNum.div, htne]
      · exact div_nonneg (le_max_left _ _) (le_of_lt ht)
      · rw [div_le_one ht]
        exact max_le (le_of_lt ht) hxle
    · have hgt : JSNum.gtB (.fin (max b1 b2 - min a1 a2)) (.fin 0) = false := by
        simp [JSNum.gtB, JSNum.ltB, ht]
      rw [if_neg (by rw [hgt]; exact Bool.false_ne_true)]
      exact ⟨0, rfl, le_refl 0, by norm_num⟩

/-- C1 (amended): the cosine, Jaccard and style ratios are guarded to 0
on zero denominators, and for profiles with nonnegative affinity and
style counters whose effective price ranges have finite (rational) minima
and are not BOTH unbounded above, the similarity is an ordinary number in
`[0, 1]`; when both effective ranges still carry the initial
`{min: 0, max: Infinity}` shape, however, the price ratio is
`Infinity / Infinity = NaN` and so is the result. -/
theorem C1_amended (p1 p2 : UserProfile)
    (h1 : ∀ kv ∈ p1.categoryAffinities, 0 ≤ kv.2)
    (h2 : ∀ kv ∈ p2.categoryAffinities, 0 ≤ kv.2)
    (h3 : ∀ kv ∈ p1.styleProfile.styles.getD [], 0 ≤ kv.2)
    (h4 : ∀ kv ∈ p2.styleProfile.styles.getD [], 0 ≤ kv.2)
    (h5 : ∃ a : ℚ, (effectiveRange p1).min = .fin a)
    (h6 : ∃ a : ℚ, (effectiveRange p2).min = .fin a)
    (h8 : (effectiveRange p1).max = .inf ∨ ∃ b : ℚ, (effectiveRange p1).max = .fin b)
    (h9 : (effectiveRange p2).max = .inf ∨ ∃ b : ℚ, (effectiveRange p2).max = .fin b)
    (h7 : ¬ ((effectiveRange p1).max = .inf ∧ (effectiveRange p2).max = .inf)) :
    (calculateUserSimilarity p1 p2).inUnit := by
  obtain ⟨q, hq, hq0, hq1⟩ := calculatePriceSimilarity_fin_unit p1 p2 h5 h6 h8 h9 h7
  obtain ⟨hc0, hc1⟩ := calculateCategorySimilarity_bounds p1 p2 h1 h2
  obtain ⟨hb0, hb1⟩ := calculateBrandSimilarity_bounds p1 p2
  obtain ⟨hs0, hs1⟩ := calculateStyleSimilarity_bounds p1 p2 h3 h4
  unfold calculateUserSimilarity
  rw [hq]
  simp only [JSNum.toRVal, RVal.mul, RVal.add, RVal.inUnit]
  have hbr0 : (0 : ℝ) ≤ (calculateBrandSimilarity p1 p2 : ℝ) := by exact_mod_cast hb0
  have hbr1 : ((calculateBrandSimilarity p1 p2 : ℚ) : ℝ) ≤ 1 := by exact_mod_cast hb1
  have hsr0 : (0 : ℝ) ≤ (calculateStyleSimilarity p1 p2 : ℝ) := by exact_mod_cast hs0
  have hsr1 : ((calculateStyleSimilarity p1 p2 : ℚ) : ℝ) ≤ 1 := by exact_mod_cast hs1
  have hqr0 : (0 : ℝ) ≤ ((q : ℚ) : ℝ) := by exact_mod_cast hq0
  have hqr1 : ((q : ℚ) : ℝ) ≤ 1 := by exact_mod_cast hq1
  constructor <;> nlinarith [hc0, hc1, hbr0, hbr1, hsr0, hsr1, hqr0, hqr1]

/-- A profile with one positive category affinity and a finite preferred
price range. -/
def exProfileA : UserProfile :=
  { createNewUserProfile "a" with
      categoryAffinities := [("clothing", 5)],
      preferredPriceRange := some ⟨.fin 10, .fin 20⟩ }

/-- C1 (witness): the amended statement evaluated on a profile with a
finite preferred range against a fresh profile. -/
theorem C1_witness :
    ((∀ kv ∈ exProfileA.categoryAffinities, 0 ≤ kv.2) ∧
      ¬ ((effectiveRange exProfileA).max = .inf ∧
          (effectiveRange (createNewUserProfile "b")).max = .inf)) ∧
      (calculateUserSimilarity exProfileA (createNewUserProfile "b")).inUnit :=
  ⟨⟨by norm_num [exProfileA, createNewUserProfile], by decide⟩,
    C1_amended exProfileA (createNewUserProfile "b")
      (by norm_num [exProfileA, createNewUserProfile])
      (by norm_num [createNewUserProfile])
      (by simp [exProfileA, createNewUserProfile])
      (by simp [createNewUserProfile])
      ⟨10, rfl⟩ ⟨0, rfl⟩ (Or.inr ⟨20, rfl⟩) (Or.inl rfl) (by decide)⟩


/-! ## C4 -/

theorem applyDiversityFilter_length (recs : List ScoredProduct) (limit : ℕ) :
    (applyDiversityFilter recs limit).length ≤ limit := by
  unfold applyDiversityFilter
  split
  · next h => exact h
  · simp only [List.length_map, List.length_take]
    omega

/-- The first diversity pass keeps the selected indices duplicate-free and
only selects entries from the initial selection or the worklist. -/
theorem diversityFirstPass_mem_nodup (limit : ℕ) :
    ∀ (l sel : List (ℕ × ScoredProduct)) (used : List String),
      (sel.map Prod.fst).Nodup → (l.map Prod.fst).Nodup →
      (∀ i ∈ sel.map Prod.fst, i ∉ l.map Prod.fst) →
      ((diversityFirstPass limit l sel used).map Prod.fst).Nodup ∧
        ∀ x ∈ diversityFirstPass limit l sel used, x ∈ sel ∨ x ∈ l := by
  intro l
  induction l with
  | nil =>
      intro sel used hsel _ _
      exact ⟨by simpa [diversityFirstPass] using hsel, by simp [diversityFirstPass]⟩
  | cons r rest ih =>
      intro sel used hsel hl hdisj
      rw [diversityFirstPass]
      by_cases hfull : limit ≤ sel.length
      · rw [if_pos hfull]
        exact ⟨hsel, fun x hx => Or.inl hx⟩
      · rw [if_neg hfull]
        rw [List.map_cons, List.nodup_cons] at hl
        by_cases hcnt : (used.filter (fun c => c = r.2.product.category)).length <
            jsCeil ((limit : ℚ) * diversityFactor)
        · rw [if_pos hcnt]
          have hrnotsel : r.1 ∉ sel.map Prod.fst := by
            intro hc
            exact hdisj r.1 hc (by simp)
          have hsel2 : ((sel ++ [r]).map Prod.fst).Nodup := by
            rw [List.map_append, List.nodup_append]
            exact ⟨hsel, by simp, by simpa using hrnotsel⟩
          have hdisj2 : ∀ i ∈ (sel ++ [r]).map Prod.fst, i ∉ rest.map Prod.fst := by
            intro i hi
            rw [List.map_append, List.mem_append] at hi
            rcases hi with hi | hi
            · exact fun hc => hdisj i hi (by simp [hc])
            · simp only [List.map_singleton, List.mem_singleton] at hi
              exact hi ▸ hl.1
          obtain ⟨hn, hm⟩ := ih (sel ++ [r]) _ hsel2 hl.2 hdisj2
          refine ⟨hn, fun x hx => ?_⟩
          rcases hm x hx with hx1 | hx2
          · rcases List.mem_append.mp hx1 with h | h
            · exact Or.inl h
            · simp only [List.mem_singleton] at h
              exact Or.inr (by simp [h])
          · exact Or.inr (List.mem_cons_of_mem _ hx2)
        · rw [if_neg hcnt]
          have hdisj2 : ∀ i ∈ sel.map Prod.fst, i ∉ rest.map Prod.fst :=
            fun i hi hc => hdisj i hi (by simp [hc])
          obtain ⟨hn, hm⟩ := ih sel _ hsel hl.2 hdisj2
          exact ⟨hn, fun x hx => (hm x hx).imp id (List.mem_cons_of_mem _)⟩

/-- The second diversity pass (which checks membership before adding)
keeps the selected indices duplicate-free and only selects entries from
the initial selection or the worklist. -/
theorem diversitySecondPass_mem_nodup (limit : ℕ) :
    ∀ (l sel : List (ℕ × ScoredProduct)),
      (sel.map Prod.fst).Nodup → (l.map Prod.fst).Nodup →
      ((diversitySecondPass limit l sel).map Prod.fst).Nodup ∧
        ∀ x ∈ diversitySecondPass limit l sel, x ∈ sel ∨ x ∈ l := by
  intro l
  induction l with
  | nil =>
      intro sel hsel _
      exact ⟨by simpa [diversitySecondPass] using hsel, by simp [diversitySecondPass]⟩
  | cons r rest ih =>
      intro sel hsel hl
      rw [diversitySecondPass]
      by_cases hfull : limit ≤ sel.length
      · rw [if_pos hfull]
        exact ⟨hsel, fun x hx => Or.inl hx⟩
      · rw [if_neg hfull]
        rw [List.map_cons, List.nodup_cons] at hl
        by_cases hmem : sel.any (fun x => x.1 = r.1) = true
        · rw [if_pos hmem]
          obtain ⟨hn, hm⟩ := ih sel hsel hl.2
          exact ⟨hn, fun x hx => (hm x hx).imp id (List.mem_cons_of_mem _)⟩
        · rw [if_neg hmem]
          have hrnotsel : r.1 ∉ sel.map Prod.fst := by
            intro hc
            rw [List.mem_map] at hc
            obtain ⟨y, hy, hy1⟩ := hc
            exact hmem (List.any_eq_true.mpr ⟨y, hy, by simp [hy1]⟩)
          have hsel2 : ((sel ++ [r]).map Prod.fst).Nodup := by
            rw [List.map_append, List.nodup_append]
            exact ⟨hsel, by simp, by simpa using hrnotsel⟩
          obtain ⟨hn, hm⟩ := ih (sel ++ [r]) hsel2 hl.2
          refine ⟨hn, fun x hx => ?_⟩
          rcases hm x hx with hx1 | hx2
          · rcases List.mem_append.mp hx1 with h | h
            · exact Or.inl h
            · simp only [List.mem_singleton] at h
              exact Or.inr (by simp [h])
          · exact Or.inr (List.mem_cons_of_mem _ hx2)

/-- Entries drawn (without index repetition) from an enumerated list whose
product ids are duplicate-free have duplicate-free product ids. -/
theorem enum_ids_nodup (recs : List ScoredProduct)
    (hids : (recs.map (fun r => r.product.id)).Nodup) :
    ∀ (S : List (ℕ × ScoredProduct)), (S.map Prod.fst).Nodup →
      (∀ x ∈ S, x ∈ recs.enum) →
      (S.map (fun x => x.2.product.id)).Nodup := by
  intro S
  induction S with
  | nil => simp
  | cons x T ih =>
      intro hfst hmem
      rw [List.map_cons, List.nodup_cons] at hfst ⊢
      refine ⟨?_, ih hfst.2 (fun y hy => hmem y (List.mem_cons_of_mem _ hy))⟩
      intro hbad
      rw [List.mem_map] at hbad
      obtain ⟨y, hyT, hyid⟩ := hbad
      have hx := List.mem_enum_iff_get?.mp (hmem x (List.mem_cons_self _ _))
      have hy2 := List.mem_enum_iff_get?.mp (hmem y (List.mem_cons_of_mem _ hyT))
      have hx2 : (recs.map (fun r => r.product.id)).get? x.1 =
          some x.2.product.id := by
        rw [List.get?_map, hx]
        rfl
      have hy3 : (recs.map (fun r => r.product.id)).get? y.1 =
          some y.2.product.id := by
        rw [List.get?_map, hy2]
        rfl
      have hlen : x.1 < (recs.map (fun r => r.product.id)).length := by
        by_contra hge
        rw [List.get?_eq_none.mpr (le_of_not_lt hge)] at hx2
        exact absurd hx2 (by simp)
      have heq : x.1 = y.1 := List.get?_inj hlen hids (by rw [hx2, hy3, hyid])
      exact hfst.1 (heq ▸ List.mem_map_of_mem Prod.fst hyT)

/-- The diversity filter never introduces a duplicate product id. -/
theorem applyDiversityFilter_ids_nodup (recs : List ScoredProduct) (limit : ℕ)
    (h : (recs.map (fun r => r.product.id)).Nodup) :
    ((applyDiversityFilter recs limit).map (fun r => r.product.id)).Nodup := by
  unfold applyDiversityFilter
  split
  · exact h
  · show ((((diversitySecondPass limit recs.enum
        (diversityFirstPass limit recs.enum [] [])).take limit).map
          (fun x => x.2)).map (fun r => r.product.id)).Nodup
    obtain ⟨hn1, hm1⟩ := diversityFirstPass_mem_nodup limit recs.enum [] []
      (by simp) (List.nodup_enum_map_fst recs) (by simp)
    obtain ⟨hn2, hm2⟩ := diversitySecondPass_mem_nodup limit recs.enum _ hn1
      (List.nodup_enum_map_fst recs)
    have hmem : ∀ x ∈ diversitySecondPass limit recs.enum
        (diversityFirstPass limit recs.enum [] []), x ∈ recs.enum := by
      intro x hx
      rcases hm2 x hx with h1 | h2
      · rcases hm1 x h1 with h3 | h4
        · simp at h3
        · exact h4
      · exact h2
    have hkey := enum_ids_nodup recs h _ hn2 hmem
    rw [List.map_map]
    exact ((List.take_sublist limit _).map _).nodup hkey

/-- The key list of `mapSet` either stays put or gains the new key at the
end. -/
theorem mapSet_map_fst {α : Type} (m : List (Nat × α)) (k : Nat) (v : α) :
    (mapSet m k v).map Prod.fst =
      if k ∈ m.map Prod.fst then m.map Prod.fst else m.map Prod.fst ++ [k] := by
  induction m with
  | nil => simp [mapSet]
  | cons hd tl ih =>
      by_cases h : hd.1 = k
      · simp [mapSet, h]
      · simp only [mapSet, h, if_false, List.map_cons, ih]
        by_cases hmem : k ∈ tl.map Prod.fst
        · simp [hmem, Ne.symm h]
        · simp [hmem, Ne.symm h]

/-- `mapSet` preserves duplicate-free keys. -/
theorem mapSet_fst_nodup {α : Type} {m : List (Nat × α)}
    (h : (m.map Prod.fst).Nodup) (k : Nat) (v : α) :
    ((mapSet m k v).map Prod.fst).Nodup := by
  rw [mapSet_map_fst]
  split
  · exact h
  · next hmem =>
      rw [List.nodup_append]
      exact ⟨h, by simp, by simpa using hmem⟩

/-- A fold preserves any invariant its step preserves. -/
theorem foldl_preserve {σ β : Type} (P : σ → Prop) (step : σ → β → σ)
    (hstep : ∀ s e, P s → P (step s e)) :
    ∀ (l : List β) (s : σ), P s → P (l.foldl step s) := by
  intro l
  induction l with
  | nil => exact fun s h => h
  | cons e t ih => exact fun s h => ih _ (hstep s e h)

/-- Resolving scored map entries against the catalog via `find?` keeps
product ids duplicate-free, because each found product carries the entry's
own key as its id. -/
theorem filterMap_find_ids_nodup (products : List Product) :
    ∀ (es : List (Nat × ℚ)), (es.map Prod.fst).Nodup →
      ((es.filterMap (fun e => (products.find? (fun pr => pr.id = e.1)).map
          (fun pr => ScoredProduct.mk pr e.2))).map
        (fun r => r.product.id)).Nodup ∧
      ∀ r ∈ es.filterMap (fun e => (products.find? (fun pr => pr.id = e.1)).map
          (fun pr => ScoredProduct.mk pr e.2)), r.product.id ∈ es.map Prod.fst := by
  intro es
  induction es with
  | nil => simp
  | cons e rest ih =>
      intro h
      rw [List.map_cons, List.nodup_cons] at h
      obtain ⟨hnotin, hnd⟩ := h
      obtain ⟨ihn, ihm⟩ := ih hnd
      cases hfind : products.find? (fun pr => pr.id = e.1) with
      | none =>
          have hstep : (fun e : Nat × ℚ =>
              (products.find? (fun pr => pr.id = e.1)).map
                (fun pr => ScoredProduct.mk pr e.2)) e = none := by
            simp only [hfind]; rfl
          rw [@List.filterMap_cons_none _ _
            (fun e : Nat × ℚ => (products.find? (fun pr => pr.id = e.1)).map
              (fun pr => ScoredProduct.mk pr e.2)) e rest hstep]
          exact ⟨ihn, fun r hr => List.mem_cons_of_mem _ (ihm r hr)⟩
      | some pr =>
          have hid : pr.id = e.1 := by
            have := List.find?_some hfind
            simpa using this
          have hstep : (fun e : Nat × ℚ =>
              (products.find? (fun pr => pr.id = e.1)).map
                (fun pr => ScoredProduct.mk pr e.2)) e =
              some (ScoredProduct.mk pr e.2) := by
            simp only [hfind]; rfl
          rw [@List.filterMap_cons_some _ _
            (fun e : Nat × ℚ => (products.find? (fun pr => pr.id = e.1)).map
              (fun pr => ScoredProduct.mk pr e.2)) e rest _ hstep]
          constructor
          · rw [List.map_cons, List.nodup_cons]
            refine ⟨?_, ihn⟩
            intro hc
            rw [List.mem_map] at hc
            obtain ⟨y, hy, hyid⟩ := hc
            have := ihm y hy
            rw [hyid] at this
            simp only [ScoredProduct.mk] at this
            rw [hid] at this
            exact hnotin this
          · intro r hr
            rcases List.mem_cons.mp hr with hr | hr
            · rw [hr]
              simp [hid]
            · exact List.mem_cons_of_mem _ (ihm r hr)

/-- C4: `getPersonalizedRecommendations` returns at most `limit` products
and the returned list has no duplicate product ids, for every profile
store, candidate list and limit. -/
theorem C4_theorem (store : List (String × UserProfile)) (userId : String)
    (products : List Product) (limit : ℕ) :
    (getPersonalizedRecommendations store userId products limit).length ≤ limit ∧
      ((getPersonalizedRecommendations store userId products limit).map
        (fun p => p.id)).Nodup := by
  unfold getPersonalizedRecommendations
  constructor
  · rw [List.length_map]
    exact applyDiversityFilter_length _ _
  · rw [List.map_map]
    apply applyDiversityFilter_ids_nodup
    apply (filterMap_find_ids_nodup products _ ?_).1
    refine (((List.mergeSort_perm _ (fun a b : Nat × ℚ => decide (b.2 ≤ a.2))).map
      Prod.fst).nodup_iff).mpr ?_
    exact foldl_preserve (fun m : List (Nat × ℚ) => (m.map Prod.fst).Nodup) _
      (fun m e hm => mapSet_fst_nodup hm _ _) _ _
      (foldl_preserve (fun m : List (Nat × ℚ) => (m.map Prod.fst).Nodup) _
        (fun m e hm => mapSet_fst_nodup hm _ _) _ _ (by simp))

end Shopr
